import Mathlib

/-!
Verification development for the browser-chess-ai repository.

The repository has two source modules:
* `src/stockfish/Engine.ts` — the `ChessEngine` class wrapping a Stockfish
  web worker: `init`, `postCommand`, `search`, `newGame`, `setPosition`,
  and the `onmessage` handler that resolves the init promise on `readyok`
  and parses `bestmove` responses.
* `src/main.ts` — the UI glue: game state, board rendering, click handling,
  move application through the chess.js library, and AI move requests.

This file shallowly embeds those functions: pure string formatting becomes
Lean functions on `String`, the worker channel becomes an explicit log of
posted messages, thrown exceptions become `Except`, and JavaScript number
truthiness (which treats `0` and `undefined` as false) is modelled
explicitly on `Option Int`.
-/

namespace BrowserChess

/-- JavaScript truthiness of an optional number: `undefined` and `0` are
falsy, every other integer is truthy.  (We model TypeScript `number` as
`Int`; `NaN` is out of scope.)  This is the test performed by
`if (cmd.depth)` / `if (cmd.movetime)` in `postCommand`. -/
def jsTruthy : Option Int → Bool
  | none => false
  | some n => n != 0

/-- The `StockfishCommand` union type from `src/types/stockfish.ts`:
string commands `uci`, `isready`, `ucinewgame`, `quit`, and the three
object commands `position`, `go`, `setoption`.  The `setoption` value
(`string | number` in the source) is modelled by its string rendering,
since the template literal stringifies it either way. -/
inductive StockfishCommand where
  | uci
  | isready
  | ucinewgame
  | quit
  | position (fen : String)
  | go (movetime : Option Int) (depth : Option Int)
  | setoption (name : String) (value : String)
deriving DecidableEq

/-- One step of `message += \x7b label ++ n \x7d` guarded by `if (truthy)`:
mirrors `if (cmd.depth) message += ...` in `postCommand`. -/
def appendIfTruthy (base label : String) : Option Int → String
  | none => base
  | some n => if n = 0 then base else base ++ (label ++ toString n)

/-- The string built for a `go` command by `postCommand` (Engine.ts lines
46-49): start from `go`, append the depth clause if `cmd.depth` is truthy,
then the movetime clause if `cmd.movetime` is truthy. -/
def goMessage (movetime depth : Option Int) : String :=
  appendIfTruthy (appendIfTruthy "go" " depth " depth) " movetime " movetime

/-- The single string that `postCommand` posts to the worker for each
well-typed `StockfishCommand` (Engine.ts lines 40-56).  The source's
final `else return` branch is unreachable for well-typed input, since the
union has exactly these constructors. -/
def postCommandMessage : StockfishCommand → String
  | .uci => "uci"
  | .isready => "isready"
  | .ucinewgame => "ucinewgame"
  | .quit => "quit"
  | .position fen => "position fen " ++ fen
  | .go movetime depth => goMessage movetime depth
  | .setoption nm v => "setoption name " ++ nm ++ " value " ++ v

/-- Engine state: `worker` is `none` before `init` has created the worker
(the source's `worker: StockfishWorker | null = null`), and `some log`
afterwards, where `log` is the ordered list of strings posted so far. -/
structure EngineState where
  worker : Option (List String)
deriving DecidableEq

/-- `postCommand` (Engine.ts lines 37-57): throws `Engine not initialized`
when the worker is null, otherwise posts exactly one formatted message. -/
def postCommand (st : EngineState) (c : StockfishCommand) : Except String EngineState :=
  match st.worker with
  | none => .error "Engine not initialized"
  | some log => .ok ⟨some (log ++ [postCommandMessage c])⟩

/-- `search` (Engine.ts lines 59-61): forwards its options to `postCommand`
as a `go` command. -/
def search (st : EngineState) (movetime depth : Option Int) : Except String EngineState :=
  postCommand st (.go movetime depth)

/-- `newGame` (Engine.ts lines 63-65). -/
def newGame (st : EngineState) : Except String EngineState :=
  postCommand st .ucinewgame

/-- `setPosition` (Engine.ts lines 67-69). -/
def setPosition (st : EngineState) (fen : String) : Except String EngineState :=
  postCommand st (.position fen)

/-- The engine state right after `init` has created the worker and posted
its two start-up commands (Engine.ts lines 12, 32-33). -/
def initEngineState : EngineState := ⟨some ["uci", "isready"]⟩

/-! ### The spec's command grammar -/

/-- Renders an optional numeric clause of the spec grammar: nothing when
absent, `label ++ N` when present.  Used to state the spec's shapes
`go [depth N] [movetime M]`. -/
def optNum (label : String) : Option Int → String
  | none => ""
  | some n => label ++ toString n

/-- The spec's fixed command grammar, taken from its own words: `uci`,
`isready`, `ucinewgame`, `position fen <fen>`, `go [depth N] [movetime M]`,
`setoption name K value V`. -/
def SpecCommandShape (s : String) : Prop :=
  s = "uci" ∨ s = "isready" ∨ s = "ucinewgame" ∨
  (∃ fen, s = "position fen " ++ fen) ∨
  (∃ d m, s = "go" ++ optNum " depth " d ++ optNum " movetime " m) ∨
  (∃ k v, s = "setoption name " ++ k ++ " value " ++ v)

/-- The `go` string that the spec grammar's amended reading predicts: a
depth or movetime clause appears exactly when the corresponding option is
present and nonzero (JavaScript truthiness drops a zero value). -/
def goSpecAmended (movetime depth : Option Int) : String :=
  "go" ++ optNum " depth " (depth.filter (fun n => n != 0))
       ++ optNum " movetime " (movetime.filter (fun n => n != 0))

theorem goMessage_eq_goSpecAmended (movetime depth : Option Int) :
    goMessage movetime depth = goSpecAmended movetime depth := by
  rcases depth with _ | d <;> rcases movetime with _ | m <;>
    simp only [goMessage, goSpecAmended, appendIfTruthy, optNum, Option.filter] <;>
    (try split_ifs with h₁ h₂) <;>
    simp_all [optNum, String.append_assoc, String.append_empty]

theorem string_ne_append_of_head_ne (s p t : String) (c d : Char)
    (hs : s.data.head? = some c) (hp : p.data.head? = some d) (hcd : c ≠ d) :
    s ≠ p ++ t := by
  intro h
  have hdata : s.data = p.data ++ t.data := by
    rw [h, String.data_append]
  have hhead : s.data.head? = some d := by
    rw [hdata, List.head?_append_of_ne_nil]
    · exact hp
    · intro hnil
      rw [hnil] at hp
      exact Option.noConfusion hp
  rw [hs] at hhead
  exact hcd (Option.some.inj hhead)

/-- C1, counterexample: `quit` is a well-typed `StockfishCommand` (it is
one of the union's string members), `postCommand` posts the string `quit`
for it, and that string matches none of the spec's listed command shapes. -/
theorem c1_quit_counterexample :
    postCommandMessage .quit = "quit" ∧ ¬ SpecCommandShape "quit" := by
  refine ⟨rfl, ?_⟩
  rintro (h | h | h | ⟨fen, h⟩ | ⟨d, m, h⟩ | ⟨k, v, h⟩)
  · exact absurd h (by decide)
  · exact absurd h (by decide)
  · exact absurd h (by decide)
  · exact string_ne_append_of_head_ne "quit" "position fen " fen 'q' 'p'
      rfl rfl (by decide) h
  · exact string_ne_append_of_head_ne "quit" "go"
      (optNum " depth " d ++ optNum " movetime " m) 'q' 'g'
      rfl rfl (by decide) (by rw [h, String.append_assoc])
  · exact string_ne_append_of_head_ne "quit" "setoption name "
      (k ++ (" value " ++ v)) 'q' 's'
      rfl rfl (by decide) (by rw [h, String.append_assoc, String.append_assoc])

/-- C1, amended: for every well-typed `StockfishCommand`, the string that
`postCommand` posts either matches one of the spec's listed shapes or is
the additional string command `quit` (which the spec's list omits); in
particular `postCommand` posts exactly one message for every well-typed
command. -/
theorem c1_amended_postCommand_shapes (c : StockfishCommand) :
    SpecCommandShape (postCommandMessage c) ∨ postCommandMessage c = "quit" := by
  cases c with
  | uci => exact Or.inl (Or.inl rfl)
  | isready => exact Or.inl (Or.inr (Or.inl rfl))
  | ucinewgame => exact Or.inl (Or.inr (Or.inr (Or.inl rfl)))
  | quit => exact Or.inr rfl
  | position fen =>
      exact Or.inl (Or.inr (Or.inr (Or.inr (Or.inl ⟨fen, rfl⟩))))
  | go mt d =>
      refine Or.inl (Or.inr (Or.inr (Or.inr (Or.inr (Or.inl
        ⟨d.filter (fun n => n != 0), mt.filter (fun n => n != 0), ?_⟩)))))
      exact goMessage_eq_goSpecAmended mt d
  | setoption k v =>
      exact Or.inl (Or.inr (Or.inr (Or.inr (Or.inr (Or.inr ⟨k, v, rfl⟩)))))

/-- C2: on an initialized engine (worker present with any message log),
`setPosition f` posts exactly the single string `position fen ` ++ `f`,
and it is literally `postCommand` applied to the position command. -/
theorem c2_setPosition_exact (log : List String) (f : String) :
    setPosition ⟨some log⟩ f = .ok ⟨some (log ++ ["position fen " ++ f])⟩ ∧
    setPosition ⟨some log⟩ f = postCommand ⟨some log⟩ (.position f) :=
  ⟨rfl, rfl⟩

/-- C3, counterexample: `search` with a supplied depth of `0` posts the
bare string `go`, not `go depth 0` as the claim's for-every-options
reading predicts, because JavaScript truthiness drops a zero depth. -/
theorem c3_zero_depth_counterexample :
    search ⟨some []⟩ none (some 0) = .ok ⟨some ["go"]⟩ ∧
    ("go" : String) ≠ "go depth 0" := by
  exact ⟨rfl, by decide⟩

/-- C3, amended: `search` posts exactly one string, `go` followed by a
depth clause exactly when a nonzero depth is supplied, then a movetime
clause exactly when a nonzero movetime is supplied (depth before
movetime); zero-valued options are dropped by JavaScript truthiness. -/
theorem c3_search_amended (log : List String) (movetime depth : Option Int) :
    search ⟨some log⟩ movetime depth =
      .ok ⟨some (log ++ [goSpecAmended movetime depth])⟩ := by
  simp only [search, postCommand, postCommandMessage, goMessage_eq_goSpecAmended]

/-- C8: `postCommand` fails exactly when the worker has not been created
(`worker` is `none`), in which case it returns the error
`Engine not initialized` and posts nothing; on any initialized state it
posts exactly one message and never fails. -/
theorem c8_postCommand_error_iff (st : EngineState) (c : StockfishCommand) :
    ((∃ e, postCommand st c = .error e) ↔ st.worker = none) ∧
    (st.worker = none → postCommand st c = .error "Engine not initialized") ∧
    (∀ log, st.worker = some log →
      postCommand st c = .ok ⟨some (log ++ [postCommandMessage c])⟩) := by
  rcases st with ⟨_ | log⟩
  · refine ⟨⟨fun _ => rfl, fun _ => ⟨"Engine not initialized", rfl⟩⟩, fun _ => rfl, ?_⟩
    intro l hl
    exact Option.noConfusion hl
  · refine ⟨⟨?_, fun h => Option.noConfusion h⟩, fun h => Option.noConfusion h, ?_⟩
    · rintro ⟨e, he⟩
      exact absurd he (by simp [postCommand])
    · intro l hl
      obtain rfl : log = l := Option.some.inj hl
      rfl

/-- Witness for C8: at the uninitialized state `postCommand` returns the
error, and at the state left by `init` it succeeds, appending one message. -/
theorem c8_witness :
    postCommand ⟨none⟩ .uci = .error "Engine not initialized" ∧
    postCommand initEngineState .uci = .ok ⟨some ["uci", "isready", "uci"]⟩ := by
  refine ⟨(c8_postCommand_error_iff ⟨none⟩ .uci).2.1 rfl, ?_⟩
  exact (c8_postCommand_error_iff initEngineState .uci).2.2 ["uci", "isready"] rfl

/-! ### The worker message handler installed by `init` -/

/-- JavaScript `s.startsWith(p)` on character lists: `p` is an initial
segment of `s`. -/
def startsWithChars : List Char → List Char → Bool
  | _, [] => true
  | [], _ :: _ => false
  | c :: cs, p :: ps => c = p && startsWithChars cs ps

/-- JavaScript `s.split(sep)` for a one-character separator, on the
character list of the string: splits at every occurrence of `sep` and
keeps empty fields, exactly as `data.split(' ')` does in the source; the
result is always nonempty (`[[]]` for the empty string). -/
def splitChar (sep : Char) : List Char → List (List Char)
  | [] => [[]]
  | c :: cs =>
      let rest := splitChar sep cs
      if c = sep then [] :: rest
      else
        match rest with
        | [] => [[c]]
        | f :: fs => (c :: f) :: fs

/-- The three things the `onmessage` handler registered by `init`
(Engine.ts lines 14-27) can do with an incoming worker message. -/
inductive HandlerAction where
  | resolveInit
  | bestMove (move : String)
  | noAction
deriving DecidableEq

/-- The `onmessage` handler (Engine.ts lines 14-27): resolve the init
promise on `readyok`; on a message starting with `bestmove`, split on
single spaces, take `parts[1]`, and invoke the callback when the callback
is set and `parts[1]` is truthy (present and nonempty) and not `(none)`;
otherwise do nothing.  `hasCallback` models `this.onBestMove` being set. -/
def onWorkerMessage (hasCallback : Bool) (data : String) : HandlerAction :=
  if data = "readyok" then .resolveInit
  else if startsWithChars data.data "bestmove".data then
    match (splitChar ' ' data.data).get? 1 with
    | some mv =>
        let move := String.mk mv
        if hasCallback && move != "" && move != "(none)" then .bestMove move
        else .noAction
    | none => .noAction
  else .noAction

/-- C4, counterexample: on the message `bestmove ` (trailing space) the
second space-separated field exists (it is the empty string) and is not
`(none)`, and the callback is set, yet the handler invokes nothing,
because the empty string is falsy in JavaScript. -/
theorem c4_trailing_space_counterexample :
    onWorkerMessage true "bestmove " = .noAction ∧
    startsWithChars "bestmove ".data "bestmove".data = true ∧
    (splitChar ' ' "bestmove ".data).get? 1 = some "".data ∧
    ("" : String) ≠ "(none)" := by
  refine ⟨by decide, by decide, by decide, by decide⟩

/-- C4, amended: the callback is invoked iff the callback is set, the
message starts with `bestmove`, and the second space-separated field
exists, is nonempty, and is not `(none)`; when invoked, the callback
receives exactly that second field (the ponder part is discarded). -/
theorem c4_bestmove_amended (hasCallback : Bool) (m : String) :
    ((∃ mv, onWorkerMessage hasCallback m = .bestMove mv) ↔
      (hasCallback = true ∧ startsWithChars m.data "bestmove".data = true ∧
        ∃ mvl, (splitChar ' ' m.data).get? 1 = some mvl ∧
          String.mk mvl ≠ "" ∧ String.mk mvl ≠ "(none)")) ∧
    (∀ mv, onWorkerMessage hasCallback m = .bestMove mv →
      (splitChar ' ' m.data).get? 1 = some mv.data) := by
  simp only [onWorkerMessage]
  split
  · -- m = "readyok": the handler resolves; the message does not start
    -- with "bestmove", so both sides of the iff are false
    rename_i hready
    subst hready
    refine ⟨⟨fun ⟨mv, h⟩ => HandlerAction.noConfusion h, ?_⟩,
      fun mv h => HandlerAction.noConfusion h⟩
    rintro ⟨-, hsw, -⟩
    exact absurd hsw (by decide)
  · split
    · -- message starts with "bestmove"
      rename_i hsw
      split
      · -- parts[1] exists
        rename_i mvl hget
        split
        · -- callback set, field nonempty and not "(none)"
          rename_i hc
          simp only [Bool.and_eq_true, bne_iff_ne, ne_eq] at hc
          refine ⟨⟨fun _ => ⟨hc.1.1, hsw, mvl, hget, hc.1.2, hc.2⟩,
            fun _ => ⟨String.mk mvl, rfl⟩⟩, ?_⟩
          intro mv h
          obtain rfl : String.mk mvl = mv := by
            cases h
            rfl
          exact hget
        · -- the truthiness test fails: no invocation, and the right side
          -- would rebuild a passing test
          rename_i hc
          refine ⟨⟨fun ⟨mv, h⟩ => HandlerAction.noConfusion h, ?_⟩,
            fun mv h => HandlerAction.noConfusion h⟩
          rintro ⟨hcb, -, mvl', hget', hne1, hne2⟩
          rw [hget] at hget'
          obtain rfl : mvl = mvl' := Option.some.inj hget'
          exact absurd (by simp [hcb, bne_iff_ne, hne1, hne2]) hc
      · -- parts[1] missing
        rename_i hget
        refine ⟨⟨fun ⟨mv, h⟩ => HandlerAction.noConfusion h, ?_⟩,
          fun mv h => HandlerAction.noConfusion h⟩
        rintro ⟨-, -, mvl', hget', -, -⟩
        rw [hget] at hget'
        exact Option.noConfusion hget'
    · -- message does not start with "bestmove": both sides false
      rename_i hsw
      refine ⟨⟨fun ⟨mv, h⟩ => HandlerAction.noConfusion h, ?_⟩,
        fun mv h => HandlerAction.noConfusion h⟩
      rintro ⟨-, hsw', -⟩
      exact absurd hsw' hsw

/-- Witness for C4: on `bestmove d7d5 ponder c2c4` with the callback set,
the handler invokes the callback (with `d7d5`, the ponder part dropped). -/
theorem c4_witness :
    ∃ mv, onWorkerMessage true "bestmove d7d5 ponder c2c4" = .bestMove mv :=
  (c4_bestmove_amended true "bestmove d7d5 ponder c2c4").1.mpr
    ⟨rfl, by decide, "d7d5".data, by decide, by decide, by decide⟩

/-! ### The init promise and the order of posted commands -/

/-- An observable event at the engine boundary: the worker emits a
message, or a client calls `postCommand`. -/
inductive EngineEvent where
  | recv (m : String)
  | post (c : StockfishCommand)
deriving DecidableEq

/-- The engine-side trace state for `init`: the ordered list of strings
posted to the worker, and whether the init promise has resolved. -/
structure InitTraceState where
  posted : List String
  resolved : Bool
deriving DecidableEq

/-- The state right after `init` runs its synchronous body (Engine.ts
lines 12-33): the worker exists, `uci` then `isready` have been posted,
and the promise is still pending. -/
def initStart : InitTraceState := ⟨["uci", "isready"], false⟩

/-- One event step.  A received message resolves the promise exactly when
it is `readyok` (Engine.ts lines 18-19; the `bestmove` branch posts
nothing and does not resolve); a client post appends one formatted
message (Engine.ts line 56). -/
def initStep (s : InitTraceState) : EngineEvent → InitTraceState
  | .recv m => if m = "readyok" then { s with resolved := true } else s
  | .post c => { s with posted := s.posted ++ [postCommandMessage c] }

/-- The trace state after `init` has run and the given events occurred. -/
def runInit (evs : List EngineEvent) : InitTraceState :=
  evs.foldl initStep initStart

theorem runInit_foldl_spec (evs : List EngineEvent) (s : InitTraceState) :
    ((evs.foldl initStep s).resolved = true →
      s.resolved = true ∨ EngineEvent.recv "readyok" ∈ evs) ∧
    (∃ rest, (evs.foldl initStep s).posted = s.posted ++ rest) ∧
    ((∀ c, EngineEvent.post c ∉ evs) → (evs.foldl initStep s).posted = s.posted) := by
  induction evs generalizing s with
  | nil => exact ⟨fun h => Or.inl h, ⟨[], by simp⟩, fun _ => rfl⟩
  | cons e evs ih =>
    cases e with
    | recv m =>
      by_cases hm : m = "readyok"
      · subst hm
        refine ⟨fun _ => Or.inr (List.mem_cons_self _ _), ?_, ?_⟩
        · obtain ⟨rest, hrest⟩ := (ih { s with resolved := true }).2.1
          exact ⟨rest, by simpa [initStep] using hrest⟩
        · intro hno
          have h := (ih { s with resolved := true }).2.2
            (fun c hc => hno c (List.mem_cons_of_mem _ hc))
          simpa [initStep] using h
      · refine ⟨fun h => ?_, ?_, ?_⟩
        · rcases (ih s).1 (by simpa [initStep, hm] using h) with h' | h'
          · exact Or.inl h'
          · exact Or.inr (List.mem_cons_of_mem _ h')
        · obtain ⟨rest, hrest⟩ := (ih s).2.1
          exact ⟨rest, by simpa [initStep, hm] using hrest⟩
        · intro hno
          have h := (ih s).2.2 (fun c hc => hno c (List.mem_cons_of_mem _ hc))
          simpa [initStep, hm] using h
    | post c =>
      refine ⟨fun h => ?_, ?_, fun hno => ?_⟩
      · rcases (ih { s with posted := s.posted ++ [postCommandMessage c] }).1
          (by simpa [initStep] using h) with h' | h'
        · exact Or.inl h'
        · exact Or.inr (List.mem_cons_of_mem _ h')
      · obtain ⟨rest, hrest⟩ :=
          (ih { s with posted := s.posted ++ [postCommandMessage c] }).2.1
        refine ⟨postCommandMessage c :: rest, ?_⟩
        simp only [List.foldl_cons, initStep] at hrest ⊢
        rw [hrest]
        simp
      · exact absurd (List.mem_cons_self _ _) (hno c)

/-- C10: `init` posts exactly `uci` then `isready` when it runs and its
promise is still pending; the promise resolves only if the worker has
emitted `readyok`; every other command in the posted log comes after
`uci` and `isready`; and if no client post occurs, the posted log stays
exactly those two commands. -/
theorem c10_init_protocol (evs : List EngineEvent) :
    initStart.posted = ["uci", "isready"] ∧ initStart.resolved = false ∧
    ((runInit evs).resolved = true → EngineEvent.recv "readyok" ∈ evs) ∧
    (∃ rest, (runInit evs).posted = ["uci", "isready"] ++ rest) ∧
    ((∀ c, EngineEvent.post c ∉ evs) → (runInit evs).posted = ["uci", "isready"]) := by
  have h := runInit_foldl_spec evs initStart
  refine ⟨rfl, rfl, fun hr => ?_, h.2.1, h.2.2⟩
  rcases h.1 hr with h' | h'
  · exact absurd h' (by decide)
  · exact h'

/-- Witness for C10: after the single event of the worker emitting
`readyok`, the promise has resolved, `readyok` is in the trace, and the
posted log is exactly `uci`, `isready`. -/
theorem c10_witness :
    EngineEvent.recv "readyok" ∈ [EngineEvent.recv "readyok"] ∧
    (runInit [EngineEvent.recv "readyok"]).posted = ["uci", "isready"] := by
  have h := c10_init_protocol [EngineEvent.recv "readyok"]
  refine ⟨h.2.2.1 (by decide), h.2.2.2.2 ?_⟩
  intro c hc
  simp at hc

/-! ### The UI layer (main.ts) -/

/-- A side, chess.js style: `w` or `b`. -/
inductive Color where
  | w
  | b
deriving DecidableEq

/-- The AI mode radio value of main.ts: `depth` or `time`. -/
inductive AiMode where
  | depth
  | time
deriving DecidableEq

/-- The interface of the chess.js library exactly as main.ts consumes it:
`moves` is `game.moves` with `square` and `verbose: true` (the verbose
legal-move list for one square), `move` is `game.move`, `moveTo` reads a
verbose move's `to` field, `get` returns the colour of the piece on a
square (presence and colour are all that `handleSquareClick` reads),
`turn`, `isGameOver` and `fen` are the like-named queries.  The library
is external and mature, so it is a parameter of the model. -/
structure ChessLib (G M S : Type) where
  moves : G → S → List M
  move : G → M → G
  moveTo : M → S
  get : G → S → Option Color
  turn : G → Color
  isGameOver : G → Bool
  fen : G → String

/-- The mutable `gameState` record of main.ts (lines 37-47); the
wall-clock field `aiStartTime` is omitted (real time is out of scope). -/
structure GameState (M S : Type) where
  playerColor : Color
  aiMode : AiMode
  aiDepth : Int
  aiTime : Int
  selectedSquare : Option S
  possibleMoves : List M
  isAiThinking : Bool
  isBoardRotated : Bool

/-- The test `piece && piece.color === gameState.playerColor` from
`handleSquareClick` (main.ts line 288). -/
def isOwnPiece (pc : Color) : Option Color → Bool
  | some c => decide (c = pc)
  | none => false

/-- `handleSquareClick` (main.ts lines 279-305).  It returns only the new
selection state: the source body calls just the read-only queries
`game.get` and `game.moves` plus `renderBoard`, so the game itself is not
an output. -/
def handleSquareClick {G M S : Type} [DecidableEq S]
    (lib : ChessLib G M S) (g : G) (st : GameState M S) (sq : S) : GameState M S :=
  if st.isAiThinking || lib.isGameOver g then st
  else if lib.turn g ≠ st.playerColor then st
  else if isOwnPiece st.playerColor (lib.get g sq) then
    if st.selectedSquare = some sq then
      { st with selectedSquare := none, possibleMoves := [] }
    else
      { st with selectedSquare := some sq, possibleMoves := lib.moves g sq }
  else if st.selectedSquare.isSome then
    { st with selectedSquare := none, possibleMoves := [] }
  else st

/-- The two engine commands issued inside `makeAiMove` (main.ts lines
335-342): `setPosition(game.fen())`, then exactly one `search`, with
depth `aiDepth` when `aiMode` is depth and movetime `aiTime` otherwise. -/
def makeAiMoveMsgs {G M S : Type} (lib : ChessLib G M S) (g : G)
    (st : GameState M S) : List String :=
  [postCommandMessage (.position (lib.fen g)),
   if st.aiMode = .depth then postCommandMessage (.go none (some st.aiDepth))
   else postCommandMessage (.go (some st.aiTime) none)]

/-- `makeAiMove` (main.ts lines 328-344): set the thinking flag and issue
the position and go commands. -/
def makeAiMove {G M S : Type} (lib : ChessLib G M S) (g : G)
    (st : GameState M S) : GameState M S × List String :=
  ({ st with isAiThinking := true }, makeAiMoveMsgs lib g st)

/-- `handleMove` (main.ts lines 311-322): apply the chosen move through
the library, clear the selection, and trigger the AI turn when the game
is not over.  The third component is the list of engine commands sent. -/
def handleMove {G M S : Type} (lib : ChessLib G M S) (g : G)
    (st : GameState M S) (m : M) : G × GameState M S × List String :=
  let g' := lib.move g m
  let st' := { st with selectedSquare := none, possibleMoves := [] }
  if lib.isGameOver g' then (g', st', [])
  else
    let r := makeAiMove lib g' st'
    (g', r.1, r.2)

/-- The per-square click wiring from `createSquareElement` (main.ts lines
188-194): a square that is the `to` of some stored possible move (the
first hit of `find`) gets `handleMove` on that move; every other square
gets `handleSquareClick`.  (Rendering runs after every state change, so
the stored list the handlers close over is the current one.) -/
def squareClickDispatch {G M S : Type} [DecidableEq S]
    (lib : ChessLib G M S) (g : G) (st : GameState M S) (sq : S) :
    G × GameState M S × List String :=
  match st.possibleMoves.find? (fun m => decide (lib.moveTo m = sq)) with
  | some m => handleMove lib g st m
  | none => (g, handleSquareClick lib g st sq, [])

/-- The selection invariant that main.ts maintains: `possibleMoves` is
exactly the library's verbose legal-move list for the selected square
(stored at main.ts line 296), and empty when nothing is selected. -/
def SelectionInv {G M S : Type} (lib : ChessLib G M S) (g : G)
    (st : GameState M S) : Prop :=
  match st.selectedSquare with
  | some sq => st.possibleMoves = lib.moves g sq
  | none => st.possibleMoves = []

theorem selectionInv_handleSquareClick {G M S : Type} [DecidableEq S]
    (lib : ChessLib G M S) (g : G) (st : GameState M S) (sq : S)
    (h : SelectionInv lib g st) :
    SelectionInv lib g (handleSquareClick lib g st sq) := by
  simp only [handleSquareClick]
  split_ifs <;> first | exact h | simp [SelectionInv]

theorem selectionInv_handleMove {G M S : Type} (lib : ChessLib G M S)
    (g : G) (st : GameState M S) (m : M) :
    SelectionInv lib (handleMove lib g st m).1 (handleMove lib g st m).2.1 := by
  simp only [handleMove, makeAiMove]
  split <;> simp [SelectionInv]

/-- C5: when the click wiring dispatches to `handleMove` (the only place
a player move is applied), the move it passes is the first hit of `find`
in the stored `possibleMoves`; under the maintained selection invariant
that move is an element of the library's verbose legal-move list for the
currently selected square, so the UI never applies a move it built or
validated itself. -/
theorem c5_player_moves_from_library {G M S : Type} [DecidableEq S]
    (lib : ChessLib G M S) (g : G) (st : GameState M S) (sq : S) (m : M)
    (hInv : SelectionInv lib g st)
    (hFind : st.possibleMoves.find? (fun x => decide (lib.moveTo x = sq)) = some m) :
    squareClickDispatch lib g st sq = handleMove lib g st m ∧
    m ∈ st.possibleMoves ∧
    ∃ s, st.selectedSquare = some s ∧ st.possibleMoves = lib.moves g s ∧
      m ∈ lib.moves g s := by
  have hmem : m ∈ st.possibleMoves := List.mem_of_find?_eq_some hFind
  refine ⟨by simp only [squareClickDispatch, hFind], hmem, ?_⟩
  cases hsel : st.selectedSquare with
  | none =>
      have hempty : st.possibleMoves = [] := by
        simpa [SelectionInv, hsel] using hInv
      rw [hempty] at hmem
      exact absurd hmem (List.not_mem_nil m)
  | some s =>
      have hpm : st.possibleMoves = lib.moves g s := by
        simpa [SelectionInv, hsel] using hInv
      exact ⟨s, rfl, hpm, hpm ▸ hmem⟩

/-- A one-square, one-move instantiation of the library interface, used
only to evaluate the click theorems at a concrete input. -/
def toyLib : ChessLib Unit Unit Unit where
  moves := fun _ _ => [()]
  move := fun g _ => g
  moveTo := fun _ => ()
  get := fun _ _ => some .w
  turn := fun _ => .w
  isGameOver := fun _ => false
  fen := fun _ => "FEN0"

/-- A concrete UI state with the toy square selected and its move list
stored, satisfying the selection invariant. -/
def toyState : GameState Unit Unit :=
  { playerColor := .w, aiMode := .depth, aiDepth := 3, aiTime := 1000,
    selectedSquare := some (), possibleMoves := [()],
    isAiThinking := false, isBoardRotated := false }

/-- Witness for C5: in the toy state the dispatcher hands `handleMove`
the stored move, which is in the library's move list for the selected
square. -/
theorem c5_witness :
    squareClickDispatch toyLib () toyState () = handleMove toyLib () toyState () ∧
    () ∈ toyState.possibleMoves ∧
    ∃ s, toyState.selectedSquare = some s ∧
      toyState.possibleMoves = toyLib.moves () s ∧ () ∈ toyLib.moves () s :=
  c5_player_moves_from_library toyLib () toyState () () rfl rfl

/-- C9: `handleSquareClick` changes at most `selectedSquare` and
`possibleMoves` (all other state fields are returned unchanged, and the
game is not even an output of the function, whose body only calls the
read-only queries `game.get` and `game.moves`); and when the AI is
thinking, the game is over, or it is not the player's turn, it returns
the state entirely unchanged. -/
theorem c9_handleSquareClick_frame {G M S : Type} [DecidableEq S]
    (lib : ChessLib G M S) (g : G) (st : GameState M S) (sq : S) :
    ((handleSquareClick lib g st sq).playerColor = st.playerColor ∧
     (handleSquareClick lib g st sq).aiMode = st.aiMode ∧
     (handleSquareClick lib g st sq).aiDepth = st.aiDepth ∧
     (handleSquareClick lib g st sq).aiTime = st.aiTime ∧
     (handleSquareClick lib g st sq).isAiThinking = st.isAiThinking ∧
     (handleSquareClick lib g st sq).isBoardRotated = st.isBoardRotated) ∧
    ((st.isAiThinking = true ∨ lib.isGameOver g = true ∨
        lib.turn g ≠ st.playerColor) →
      handleSquareClick lib g st sq = st) := by
  constructor
  · simp only [handleSquareClick]
    split_ifs <;> simp
  · intro h
    by_cases h1 : (st.isAiThinking || lib.isGameOver g) = true
    · simp only [handleSquareClick, if_pos h1]
    · by_cases h2 : lib.turn g ≠ st.playerColor
      · simp only [handleSquareClick, if_neg h1, if_pos h2]
      · exfalso
        rcases h with h | h | h
        · exact h1 (by simp [h])
        · exact h1 (by simp [h])
        · exact h2 h

/-- Witness for C9: with the AI thinking, a click returns the state
unchanged. -/
theorem c9_witness :
    handleSquareClick toyLib () { toyState with isAiThinking := true } () =
      { toyState with isAiThinking := true } :=
  (c9_handleSquareClick_frame toyLib ()
    { toyState with isAiThinking := true } ()).2 (Or.inl rfl)

/-- C7, counterexample: with mode depth and `aiDepth = 0` (a supplied
depth), `makeAiMove` posts `position fen <fen>` followed by the bare
string `go` — the go command carries no depth, against the claim's
prediction `go depth 0` — because JavaScript truthiness drops the zero. -/
theorem c7_zero_depth_counterexample :
    (makeAiMove toyLib () { toyState with aiDepth := 0 }).2 =
      ["position fen FEN0", "go"] ∧
    ("go" : String) ≠ "go depth 0" := by
  exact ⟨rfl, by decide⟩

/-- C7, amended: `makeAiMove` posts exactly two commands, the position
command for the current FEN first and one go command second; the go
command carries depth `aiDepth` when `aiMode` is depth and `aiDepth` is
nonzero, movetime `aiTime` when `aiMode` is time and `aiTime` is nonzero,
and is bare `go` when the selected value is zero (JavaScript truthiness
drops it). -/
theorem c7_makeAiMove_amended {G M S : Type} (lib : ChessLib G M S)
    (g : G) (st : GameState M S) :
    (makeAiMove lib g st).2 =
      ["position fen " ++ lib.fen g,
       goSpecAmended (if st.aiMode = .time then some st.aiTime else none)
                     (if st.aiMode = .depth then some st.aiDepth else none)] ∧
    (makeAiMove lib g st).1 = { st with isAiThinking := true } := by
  refine ⟨?_, rfl⟩
  simp only [makeAiMove, makeAiMoveMsgs, postCommandMessage]
  cases hmode : st.aiMode <;>
    simp [hmode, goMessage_eq_goSpecAmended]

/-! ### Board rendering (main.ts renderBoard) -/

/-- Board orientation (main.ts line 125): rotation shows White's side on
top when playing White, otherwise Black's side is at the bottom exactly
when playing Black. -/
def boardIsFlipped {M S : Type} (st : GameState M S) : Bool :=
  if st.isBoardRotated then decide (st.playerColor = .w)
  else decide (st.playerColor = .b)

/-- The square name computed in the render loop (main.ts line 135):
`String.fromCharCode(97 + col) + (8 - row)`. -/
def squareName (row col : Nat) : String :=
  (Char.ofNat (97 + col)).toString ++ toString (8 - row)

/-- The `dataset.square` values of the elements created by `renderBoard`
(main.ts lines 130-146), in creation order: the nested loop over 8 rows
and 8 columns, with row and column mirrored when the board is flipped.
After the loop the board's contents are replaced by exactly these
elements (lines 148-149), one per cell. -/
def renderBoardSquares (isFlipped : Bool) : List String :=
  (List.range 8).flatMap (fun r =>
    (List.range 8).map (fun c =>
      let row := if isFlipped then 7 - r else r
      let col := if isFlipped then 7 - c else c
      squareName row col))

/-- The 64 board square names `a1` through `h8` — files `a`..`h`, ranks
`1`..`8` — enumerated independently of the render loop. -/
def allSquareNames : List String :=
  ("abcdefgh".toList).flatMap (fun f =>
    (List.range 8).map (fun i => f.toString ++ toString (i + 1)))

/-- C6: for every game state, `renderBoard` creates exactly 64 square
elements, no square twice, and their names cover precisely the 64 board
squares `a1` through `h8`, in either orientation. -/
theorem c6_renderBoard_covers_board {M S : Type} (st : GameState M S) :
    (renderBoardSquares (boardIsFlipped st)).length = 64 ∧
    (renderBoardSquares (boardIsFlipped st)).Nodup ∧
    List.Perm (renderBoardSquares (boardIsFlipped st)) allSquareNames := by
  cases hb : boardIsFlipped st
  · exact ⟨by decide, by decide, by decide⟩
  · exact ⟨by decide, by decide, by decide⟩

end BrowserChess
